import Mathlib

/-
Verification of the geo2ruleset repository: a shallow embedding of its
converter (v2fly domain-list parsing with include/filter resolution), its
regex-to-wildcard translator with danger classification, its renderers
(Surge / Mihomo dialects), and its two caches (ZIP source cache with a
probing fetcher, and the fingerprint-guarded result cache).

Go string primitives (strings.TrimSpace, strings.HasPrefix, strings.SplitN,
strings.Split, strings.Index, strings.Join, strings.TrimPrefix/TrimSuffix)
are embedded as executable list-of-character functions below; Go byte
indices become character indices, which preserves the relative order of
occurrence positions that the code compares.
-/

namespace GeoRS

/-- Embedding of Go strings.HasPrefix: true when p is a prefix of s. -/
def startsWithStr (s p : String) : Bool :=
  List.isPrefixOf p.data s.data

/-- Embedding of Go strings.TrimPrefix: drops p from the front of s when present. -/
def trimPfx (s p : String) : String :=
  if startsWithStr s p then String.mk (s.data.drop p.data.length) else s

/-- Drops trailing whitespace characters from a character list. -/
def dropTrailingWs : List Char → List Char
  | [] => []
  | c :: cs =>
    let r := dropTrailingWs cs
    if r.isEmpty then (if c.isWhitespace then [] else [c]) else c :: r

/-- Embedding of Go strings.TrimSpace: removes leading and trailing whitespace. -/
def trimStr (s : String) : String :=
  String.mk (dropTrailingWs (s.data.dropWhile Char.isWhitespace))

/-- Splits a character list at its first space, when one exists. -/
def breakAtSpace : List Char → Option (List Char × List Char)
  | [] => none
  | c :: cs =>
    if c = ' ' then some ([], cs)
    else
      match breakAtSpace cs with
      | none => none
      | some (a, b) => some (c :: a, b)

/-- Embedding of Go strings.SplitN(s, " ", 2): the first space-separated token
and the remainder of the line. -/
def splitN2 (s : String) : List String :=
  match breakAtSpace s.data with
  | none => [s]
  | some (a, b) => [String.mk a, String.mk b]

/-- Splits a character list on a separator character, Go strings.Split style:
the empty list of characters yields one empty field. -/
def splitOnChar (sep : Char) : List Char → List (List Char)
  | [] => [[]]
  | c :: cs =>
    if c = sep then [] :: splitOnChar sep cs
    else
      match splitOnChar sep cs with
      | [] => [[c]]
      | a :: rest => (c :: a) :: rest

/-- Embedding of Go strings.Split(s, newline): the lines of a text. -/
def splitLines (s : String) : List String :=
  (splitOnChar (Char.ofNat 10) s.data).map String.mk

/-- First occurrence search over character lists, carrying the current index;
embeds the scan behind Go strings.Index. -/
def idxFrom (pat : List Char) : List Char → Nat → Option Nat
  | s, i =>
    if List.isPrefixOf pat s then some i
    else
      match s with
      | [] => none
      | _ :: t => idxFrom pat t (i + 1)

/-- Embedding of Go strings.Index: index of the first occurrence of pat in s,
none when absent (Go returns -1). -/
def strIndex (s pat : String) : Option Nat :=
  idxFrom pat.data s.data 0

/-- Embedding of Go strings.Join(xs, newline). -/
def joinLines : List String → String
  | [] => ""
  | [x] => x
  | x :: xs => x ++ "\n" ++ joinLines xs

/-! ## Converter data model (internal/converter/types.go) -/

/-- RuleKind from the converter package: the four rule kinds of a parsed line. -/
inductive RuleKind where
  | domainSuffix
  | domain
  | domainKeyword
  | domainRegex
deriving DecidableEq, Repr

/-- Rule from the converter package: kind, value and trailing comment region. -/
structure Rule where
  kind : RuleKind
  value : String
  comment : String
deriving DecidableEq, Repr

/-- Item from the converter package. The Go struct carries an ItemKind tag with
an optional Rule pointer; the two well-formed shapes are the two constructors. -/
inductive Item where
  | rule (r : Rule)
  | comment (text : String)
deriving DecidableEq, Repr

/-- Converter: the zip reader and file getter of the Go struct are combined
into one content accessor, errors modelled with Except. -/
structure Converter where
  getFile : String → Except String String

/-! ## Parsing (internal/converter, Parse and helpers) -/

/-- matchesFilter from the converter package: an empty filter passes every
line; otherwise the trimmed trailing region must start with an at sign and
the token formed by the at sign and the filter must occur, not preceded by a
hash comment marker. -/
def matchesFilter (rest filter : String) : Bool :=
  if filter = "" then true
  else
    let trimmedRest := trimStr rest
    let filterString := "@" ++ filter
    if ¬ (startsWithStr trimmedRest "@" = true) then false
    else
      match strIndex trimmedRest filterString with
      | none => false
      | some fi =>
        match strIndex trimmedRest "#" with
        | none => true
        | some ci => decide (¬ (ci < fi))

/-- parseRuleLine from the converter package: splits off the first token,
strips the recognized kind marker from it, and keeps the line only when the
trailing region passes the filter. -/
def parseRuleLine (line pfx : String) (kind : RuleKind) (filter : String) : Option Rule :=
  let parts := splitN2 line
  let value0 := parts.headD ""
  let value := if pfx = "" then value0 else trimPfx value0 pfx
  let rest := match parts with
    | _ :: r :: _ => r
    | _ => ""
  if matchesFilter rest filter then some { kind := kind, value := value, comment := rest }
  else none

/-- hasRules from the converter package: whether any item is a rule. -/
def hasRules (items : List Item) : Bool :=
  items.any fun i =>
    match i with
    | Item.rule _ => true
    | Item.comment _ => false

/-- Prepends a rule to a parse result when the line passed the filter. -/
def consRule (r? : Option Rule) (res : Except String (List Item)) : Except String (List Item) :=
  match res with
  | Except.error e => Except.error e
  | Except.ok items =>
    match r? with
    | none => Except.ok items
    | some r => Except.ok (Item.rule r :: items)

/-- The line loop of Converter.Parse together with the inlined body of
parseInclude. The Go recursion is unbounded (includes can nest arbitrarily
and even cycle); the embedding spends one unit of fuel per processed line,
so every run of the Go code is matched by a run with enough fuel. -/
def parseGo (c : Converter) : Nat → List String → String → Except String (List Item)
  | _, [], _ => Except.ok []
  | 0, _ :: _, _ => Except.error "fuel exhausted"
  | Nat.succ fuel, rawLine :: rest, filter =>
    let line := trimStr rawLine
    if line = "" then parseGo c fuel rest filter
    else if startsWithStr line "#" then
      match parseGo c fuel rest filter with
      | Except.error e => Except.error e
      | Except.ok items => Except.ok (Item.comment line :: items)
    else if startsWithStr line "domain:" then
      consRule (parseRuleLine line "domain:" RuleKind.domainSuffix filter) (parseGo c fuel rest filter)
    else if startsWithStr line "full:" then
      consRule (parseRuleLine line "full:" RuleKind.domain filter) (parseGo c fuel rest filter)
    else if startsWithStr line "keyword:" then
      consRule (parseRuleLine line "keyword:" RuleKind.domainKeyword filter) (parseGo c fuel rest filter)
    else if startsWithStr line "regexp:" then
      consRule (parseRuleLine line "regexp:" RuleKind.domainRegex filter) (parseGo c fuel rest filter)
    else if startsWithStr line "include:" then
      let parts := splitN2 line
      let name := trimPfx (parts.headD "") "include:"
      match c.getFile name with
      | Except.error e => Except.error ("failed to fetch sub-upstream content: " ++ e)
      | Except.ok subContent =>
        match parseGo c fuel (splitLines subContent) filter with
        | Except.error e => Except.error e
        | Except.ok subItems =>
          let contributed :=
            if hasRules subItems then Item.comment ("# " ++ line) :: subItems else []
          match parseGo c fuel rest filter with
          | Except.error e => Except.error e
          | Except.ok items => Except.ok (contributed ++ items)
    else
      consRule (parseRuleLine line "" RuleKind.domainSuffix filter) (parseGo c fuel rest filter)

/-- Converter.Parse: split the content into lines and run the line loop. -/
def Parse (c : Converter) (fuel : Nat) (content filter : String) : Except String (List Item) :=
  parseGo c fuel (splitLines content) filter

/-- Converter.parseInclude, stated on its own: fetch the named member through
the content accessor, parse it with the same filter, drop the include when no
rule survived, otherwise prepend the synthetic echo comment. -/
def parseInclude (c : Converter) (fuel : Nat) (line filter : String) : Except String (List Item) :=
  let parts := splitN2 line
  let name := trimPfx (parts.headD "") "include:"
  match c.getFile name with
  | Except.error e => Except.error ("failed to fetch sub-upstream content: " ++ e)
  | Except.ok subContent =>
    match Parse c fuel subContent filter with
    | Except.error e => Except.error e
    | Except.ok subItems =>
      if ¬ (hasRules subItems = true) then Except.ok []
      else Except.ok (Item.comment ("# " ++ line) :: subItems)

/-! ## Wildcard translator (internal/wildcard/wildcard.go)

The functions below operate on the regex syntax tree. Go obtains that tree
from the standard library call syntax.Parse(regex, syntax.Perl), which is
outside this repository; the embedding keeps the parse step as an explicit
Option-valued parameter (none embeds a parse error) and translates the
repository's own tree-walking functions faithfully. -/

/-- Regex syntax-tree node kinds that the repository's switch statements
inspect, mirroring regexp/syntax operators. Character-class contents are
never inspected by this code, so the charClass node carries no payload. -/
inductive Regexp where
  | noMatch
  | emptyMatch
  | lit (chars : String)
  | charClass
  | anyCharNotNL
  | anyChar
  | beginLine
  | endLine
  | beginText
  | endText
  | wordBoundary
  | noWordBoundary
  | capture (subs : List Regexp)
  | star (subs : List Regexp)
  | plus (subs : List Regexp)
  | quest (subs : List Regexp)
  | rep (subs : List Regexp)
  | concat (subs : List Regexp)
  | alternate (subs : List Regexp)

mutual

/-- convertNode from the wildcard package: bottom-up rewrite of a regex node
into wildcard text. -/
def convertNode : Regexp → String
  | Regexp.noMatch => ""
  | Regexp.emptyMatch => ""
  | Regexp.lit chars => chars
  | Regexp.charClass => "?"
  | Regexp.anyCharNotNL => "?"
  | Regexp.anyChar => "?"
  | Regexp.beginLine => ""
  | Regexp.endLine => ""
  | Regexp.beginText => ""
  | Regexp.endText => ""
  | Regexp.wordBoundary => ""
  | Regexp.noWordBoundary => ""
  | Regexp.capture subs => convertSubs subs
  | Regexp.star _ => "*"
  | Regexp.plus _ => "*"
  | Regexp.quest _ => "*"
  | Regexp.rep _ => "*"
  | Regexp.concat subs => convertSubs subs
  | Regexp.alternate _ => "*"

/-- Concatenation of the child translations, the builder loop of convertNode. -/
def convertSubs : List Regexp → String
  | [] => ""
  | r :: rs => convertNode r ++ convertSubs rs

end

mutual

/-- containsDangerousNode from the wildcard package: the switch returns true
at a character class, an alternation or a bounded repeat, recurses through
star, plus, capture and concatenation, and returns false for every other
node kind (in particular the zero-or-one quantifier is not inspected). -/
def containsDangerousNode : Regexp → Bool
  | Regexp.charClass => true
  | Regexp.alternate _ => true
  | Regexp.rep _ => true
  | Regexp.star subs => anyDangerous subs
  | Regexp.plus subs => anyDangerous subs
  | Regexp.capture subs => anyDangerous subs
  | Regexp.concat subs => anyDangerous subs
  | _ => false

/-- The sub-expression loop of containsDangerousNode. -/
def anyDangerous : List Regexp → Bool
  | [] => false
  | r :: rs => containsDangerousNode r || anyDangerous rs

end

/-- The character loop of isBroadPattern: carries the wildcard-only flag and
the question-mark count across the pattern. -/
def broadLoop : List Char → Bool → Nat → Bool × Nat
  | [], w, q => (w, q)
  | c :: cs, w, q =>
    if c = '*' then broadLoop cs w q
    else if c = '?' then broadLoop cs w (q + 1)
    else if c = '.' then broadLoop cs false q
    else broadLoop cs false q

/-- isBroadPattern from the wildcard package: too broad when the pattern is
nonempty and consists only of star and question-mark characters (a dot
clears the wildcard-only flag), or contains three or more question marks. -/
def isBroadPattern (pattern : String) : Bool :=
  let res := broadLoop pattern.data true 0
  if res.1 && !pattern.data.isEmpty then true
  else if 3 ≤ res.2 then true
  else false

/-- Embedding of Go strings.TrimSuffix: drops p from the end of s when present. -/
def trimSfx (s p : String) : String :=
  if List.isSuffixOf p.data s.data then String.mk (s.data.take (s.data.length - p.data.length))
  else s

/-- The shared slash-stripping preamble of IsDangerousRegex and
RegexToWildcard: remove one leading and one trailing slash when present. -/
def trimSlashes (s : String) : String :=
  trimSfx (trimPfx s "/") "/"

/-- IsDangerousRegex after the parse step: a failed parse is dangerous;
otherwise the structural check and the broadness check on the translated
pattern are both consulted. -/
def IsDangerousRegexOn : Option Regexp → Bool
  | none => true
  | some re => containsDangerousNode re || isBroadPattern (convertNode re)

/-- IsDangerousRegex from the wildcard package, with the external
syntax.Parse call supplied as the parse parameter. -/
def IsDangerousRegex (parse : String → Option Regexp) (regex : String) : Bool :=
  IsDangerousRegexOn (parse (trimSlashes regex))

/-- RegexToWildcard from the wildcard package: empty wildcard on a parse
error, otherwise the node translation. -/
def RegexToWildcard (parse : String → Option Regexp) (regex : String) : String :=
  match parse (trimSlashes regex) with
  | none => ""
  | some re => convertNode re

/-! ## Renderers (part_006: RenderSurge, RenderMihomo and rule renderers) -/

/-- appendComment from the converter package: attaches the trailing comment
region to a rendered line. -/
def appendComment (line comment : String) : String :=
  if comment = "" then line
  else if startsWithStr comment "#" then line ++ " " ++ comment
  else line ++ " # " ++ comment

/-- Embedding of the package-level skipPattern regexp, caret
question-or-star-class plus dollar: an exact match means the string is
nonempty and made only of question marks and stars. -/
def skipPatternMatch (s : String) : Bool :=
  !s.data.isEmpty && s.data.all fun c => c = '?' || c = '*'

/-- renderSurgeRule: the per-kind mapping table of the Surge dialect; a regex
rule judged dangerous, or translating to a pure-wildcard pattern, is rendered
as a commented-out diagnostic line. -/
def renderSurgeRule (parse : String → Option Regexp) (rule : Rule) : String :=
  match rule.kind with
  | RuleKind.domainSuffix => appendComment ("DOMAIN-SUFFIX," ++ rule.value) rule.comment
  | RuleKind.domain => appendComment ("DOMAIN," ++ rule.value) rule.comment
  | RuleKind.domainKeyword => appendComment ("DOMAIN-KEYWORD," ++ rule.value) rule.comment
  | RuleKind.domainRegex =>
    if IsDangerousRegex parse rule.value then
      appendComment ("# DANGEROUS-REGEX," ++ rule.value) rule.comment
    else
      let wildcardPattern := RegexToWildcard parse rule.value
      let pfx :=
        if skipPatternMatch wildcardPattern then "# SKIPPED-DOMAIN-WILDCARD,"
        else "DOMAIN-WILDCARD,"
      appendComment (pfx ++ wildcardPattern) rule.comment

/-- renderMihomoRule: the Mihomo dialect emits regex rules natively. -/
def renderMihomoRule (rule : Rule) : String :=
  match rule.kind with
  | RuleKind.domainSuffix => appendComment ("DOMAIN-SUFFIX," ++ rule.value) rule.comment
  | RuleKind.domain => appendComment ("DOMAIN," ++ rule.value) rule.comment
  | RuleKind.domainKeyword => appendComment ("DOMAIN-KEYWORD," ++ rule.value) rule.comment
  | RuleKind.domainRegex => appendComment ("DOMAIN-REGEX," ++ rule.value) rule.comment

/-- The loop state of RenderSurge and RenderMihomo: emitted lines, buffered
include-echo comments, and the single pending ordinary comment. -/
structure RenderState where
  result : List String
  pendingInc : List String
  pending : String
deriving DecidableEq, Repr

/-- One iteration of the shared rendering loop: an include-echo comment is
appended to its buffer, any other comment replaces the pending comment, a
rule line that renders to a comment becomes the pending comment, and an
enabled rule line flushes include echoes, then the pending comment, then
itself. -/
def renderStep (renderRule : Rule → String) (st : RenderState) (item : Item) : RenderState :=
  match item with
  | Item.comment text =>
    if startsWithStr (trimStr text) "# include:" then
      { st with pendingInc := st.pendingInc ++ [text] }
    else
      { st with pending := text }
  | Item.rule r =>
    let line := renderRule r
    if startsWithStr (trimStr line) "#" then
      { st with pending := line }
    else
      let flushed := st.result ++ st.pendingInc
      let flushed := if st.pending ≠ "" then flushed ++ [st.pending] else flushed
      { result := flushed ++ [line], pendingInc := [], pending := "" }

/-- The shared item traversal of RenderSurge and RenderMihomo, the two Go
loops being identical up to the rule renderer they invoke. -/
def renderItems (renderRule : Rule → String) (items : List Item) : String :=
  joinLines (items.foldl (renderStep renderRule) { result := [], pendingInc := [], pending := "" }).result

/-- RenderSurge from part_006. -/
def RenderSurge (parse : String → Option Regexp) (items : List Item) : String :=
  renderItems (renderSurgeRule parse) items

/-- RenderMihomo from part_006. -/
def RenderMihomo (items : List Item) : String :=
  renderItems renderMihomoRule items

/-- Converter.Convert: parse then render in the Surge dialect. -/
def Convert (c : Converter) (fuel : Nat) (parse : String → Option Regexp)
    (content filter : String) : Except String String :=
  match Parse c fuel content filter with
  | Except.error e => Except.error e
  | Except.ok items => Except.ok (RenderSurge parse items)

/-! ## Result cache (internal/server, cache package: ResultCache) -/

/-- cacheEntry from the cache package: rendered value, creation time and the
fingerprint it was computed against. Time is modelled as an integer. -/
structure CacheEntry where
  value : String
  timestamp : Int
  etag : String
deriving DecidableEq, Repr

/-- ResultCache from the cache package: a key-indexed store with one TTL. -/
structure ResultCache where
  results : String → Option CacheEntry
  ttl : Int

/-- ResultCache.Get: a hit requires the stored fingerprint to equal the
queried one and the entry age to be within the TTL. -/
def ResultCache.get (c : ResultCache) (key etag : String) (now : Int) : Option String :=
  match c.results key with
  | none => none
  | some entry =>
    if entry.etag ≠ etag ∨ c.ttl < now - entry.timestamp then none
    else some entry.value

/-- ResultCache.Set: stores the value with the current time and fingerprint. -/
def ResultCache.set (c : ResultCache) (key value etag : String) (now : Int) : ResultCache :=
  { c with results := fun k =>
      if k = key then some { value := value, timestamp := now, etag := etag }
      else c.results k }

/-! ## ZIP source cache and fetcher (cache package ZipCache, part_002 Fetcher) -/

/-- ZipCache from the cache package: the parsed archive (reader) when
populated, its fingerprint, fetch time and TTL. The on-disk persistence
fields are I/O and are not needed by the claims. -/
structure ZipCache where
  reader : Option String
  etag : String
  timestamp : Int
  ttl : Int
deriving DecidableEq, Repr

/-- ZipCache.Get: nil reader when unpopulated; when the TTL has elapsed it
returns a nil reader together with the fingerprint and ok equal false;
otherwise the reader, fingerprint and ok equal true. -/
def ZipCache.get (c : ZipCache) (now : Int) : Option String × String × Bool :=
  match c.reader with
  | none => (none, "", false)
  | some r =>
    if c.ttl < now - c.timestamp then (none, c.etag, false)
    else (some r, c.etag, true)

/-- ZipCache.GetAny: the cached reader regardless of TTL. -/
def ZipCache.getAny (c : ZipCache) : Option String × String × Bool :=
  match c.reader with
  | none => (none, "", false)
  | some r => (some r, c.etag, true)

/-- The network environment of one Fetcher call: the outcome of the
fingerprint probe (GetETag), the outcome of a full download, and whether
given bytes form a valid archive (zip.NewReader succeeding inside Set). -/
structure FetchEnv where
  probeResult : Except String String
  downloadResult : Except String String
  zipValid : String → Bool

/-- ZipCache.Set: rejects data that does not parse as an archive, otherwise
atomically replaces reader, fingerprint and timestamp. -/
def ZipCache.setData (env : FetchEnv) (c : ZipCache) (data etag : String) (now : Int) :
    Except String ZipCache :=
  if env.zipValid data then
    Except.ok { c with reader := some data, etag := etag, timestamp := now }
  else Except.error "zip: not a valid zip file"

/-- Fetcher.GetZipReader from part_002: cache hit short-circuits; on a miss
the fingerprint probe runs; a probe failure falls back to the reader variable
returned by the TTL-gated Get; a matching fingerprint with a non-nil reader
would be returned without downloading; otherwise a full download runs and the
cache is replaced. Returns the reader-and-fingerprint result and the cache
state after the call. -/
def getZipReader (env : FetchEnv) (c : ZipCache) (now : Int) :
    Except String (Option String × String) × ZipCache :=
  let g := ZipCache.get c now
  let reader := g.1
  let etag := g.2.1
  let ok := g.2.2
  if ok then (Except.ok (reader, etag), c)
  else
    match env.probeResult with
    | Except.error e =>
      if reader.isSome then (Except.ok (reader, etag), c)
      else (Except.error ("failed to get ETag: " ++ e), c)
    | Except.ok newETag =>
      if etag = newETag ∧ reader.isSome = true then (Except.ok (reader, etag), c)
      else
        match env.downloadResult with
        | Except.error e => (Except.error e, c)
        | Except.ok data =>
          match ZipCache.setData env c data newETag now with
          | Except.error e => (Except.error ("failed to set cache: " ++ e), c)
          | Except.ok c2 =>
            let g2 := ZipCache.get c2 now
            (Except.ok (g2.1, newETag), c2)

/-! ## Shared concrete fixtures used by witnesses and counterexamples -/

/-- A converter whose archive holds one member named sub. -/
def cEx : Converter :=
  { getFile := fun n => if n = "sub" then Except.ok "domain:a.com" else Except.error "file not found" }

/-- A converter whose content accessor finds nothing. -/
def cErr : Converter := { getFile := fun _ => Except.error "file not found" }

/-- The syntax tree Go's regexp parser produces for the bracket-a-to-z-plus
dot-example-dot-com pattern of the spec: a plus-wrapped character class
concatenated with a literal. -/
def reDanger : Regexp := Regexp.concat [Regexp.plus [Regexp.charClass], Regexp.lit ".example.com"]

/-- The syntax tree of a six-letter literal followed by an optional character
class: the zero-or-one quantifier directly wraps a character class. -/
def reQuest : Regexp := Regexp.concat [Regexp.lit "abcdef", Regexp.quest [Regexp.charClass]]

/-- The syntax tree of dot dot backslash-dot dot-star: two any-characters, a
literal dot, then a starred any-character; it translates to a wildcard made
only of question marks, a dot and a star. -/
def reDots : Regexp :=
  Regexp.concat [Regexp.anyCharNotNL, Regexp.anyCharNotNL, Regexp.lit ".",
    Regexp.star [Regexp.anyCharNotNL]]

/-- A concrete stand-in for the external regex parser, defined on the one
pattern the fixtures use. -/
def parseEx : String → Option Regexp := fun s =>
  if s = "[a-z]+\\.example\\.com" then some reDanger else none

/-- A populated source cache whose TTL has elapsed at time 100. -/
def staleCache : ZipCache := { reader := some "ZIPDATA", etag := "E1", timestamp := 0, ttl := 10 }

/-- A network environment whose fingerprint probe fails. -/
def envProbeFail : FetchEnv :=
  { probeResult := Except.error "dial tcp: timeout", downloadResult := Except.ok "NEW",
    zipValid := fun _ => true }

/-- A network environment whose probe returns the cached fingerprint but whose
download fails, exposing whether a download is attempted. -/
def envMatch : FetchEnv :=
  { probeResult := Except.ok "E1", downloadResult := Except.error "download failed",
    zipValid := fun _ => true }

/-! ## Helper lemmas about the string primitives -/

theorem startsWithStr_iff (s p : String) : startsWithStr s p = true ↔ p.data <+: s.data := by
  simp [startsWithStr, List.isPrefixOf_iff_prefix]

theorem startsWithStr_head_ne {s p : String} {c d : Char} {ts tp : List Char}
    (hs : s.data = c :: ts) (hp : p.data = d :: tp) (hne : d ≠ c) :
    startsWithStr s p = false := by
  rw [Bool.eq_false_iff]
  intro h
  rw [startsWithStr_iff, hs, hp, List.cons_prefix_cons] at h
  exact hne h.1

theorem dropTrailingWs_length (l : List Char) : (dropTrailingWs l).length ≤ l.length := by
  induction l with
  | nil => simp [dropTrailingWs]
  | cons c cs ih =>
    simp only [dropTrailingWs]
    split
    · split <;> simp
    · simpa using ih

theorem dropWhile_length_le (p : Char → Bool) (l : List Char) :
    (List.dropWhile p l).length ≤ l.length := by
  induction l with
  | nil => simp
  | cons x xs ih =>
    rw [List.dropWhile_cons]
    split
    · exact le_trans ih (by simp)
    · simp

/-- A trimmed nonempty string starts with a non-whitespace character. -/
theorem trimmed_head {l : String} (h : trimStr l = l) (hne : l ≠ "") :
    ∃ c t, l.data = c :: t ∧ ¬ c.isWhitespace := by
  cases hd : l.data with
  | nil => exact absurd (String.ext hd) hne
  | cons c t =>
    refine ⟨c, t, rfl, ?_⟩
    intro hws
    have hlen : (trimStr l).data.length = l.data.length := by rw [h]
    rw [trimStr] at hlen
    rw [hd] at hlen
    rw [List.dropWhile_cons] at hlen
    simp only [hws, if_true] at hlen
    have h1 : (dropTrailingWs (List.dropWhile Char.isWhitespace t)).length ≤ t.length :=
      le_trans (dropTrailingWs_length _) (dropWhile_length_le _ _)
    simp at hlen
    omega

/-- Trimming keeps a non-whitespace head character in place. -/
theorem trimStr_head_keep {c : Char} (hc : ¬ c.isWhitespace) (t : List Char) :
    ∃ t', (trimStr (String.mk (c :: t))).data = c :: t' := by
  simp only [trimStr, List.dropWhile_cons, hc, if_false]
  simp only [dropTrailingWs]
  split
  · simp [hc]
  · exact ⟨_, rfl⟩

theorem idxFrom_spec (pat : List Char) :
    ∀ (s : List Char) (i j : Nat), idxFrom pat s i = some j →
      ∃ k, j = i + k ∧ List.isPrefixOf pat (s.drop k) = true := by
  intro s
  induction s with
  | nil =>
    intro i j h
    rw [idxFrom] at h
    by_cases hp : List.isPrefixOf pat [] = true
    · rw [if_pos hp] at h
      cases h
      exact ⟨0, by omega, by simpa using hp⟩
    · rw [if_neg hp] at h
      cases h
  | cons c t ih =>
    intro i j h
    rw [idxFrom] at h
    by_cases hp : List.isPrefixOf pat (c :: t) = true
    · rw [if_pos hp] at h
      cases h
      exact ⟨0, by omega, by simpa using hp⟩
    · rw [if_neg hp] at h
      obtain ⟨k, hk, hpfx⟩ := ih (i + 1) j h
      exact ⟨k + 1, by omega, by simpa using hpfx⟩

/-! ## C1: the result cache is fingerprint-guarded -/

/-- C1: a result stored in ResultCache under fingerprint f1 is never returned
by a Get that queries a different fingerprint f2, and a Get hit happens only
when the stored entry's fingerprint equals the queried one and the entry's
age is within the TTL. -/
theorem c1_result_cache_fingerprint_guard :
    (∀ (c : ResultCache) (key value f1 f2 : String) (now1 now2 : Int),
        f1 ≠ f2 →
        ResultCache.get (ResultCache.set c key value f1 now1) key f2 now2 = none)
    ∧ (∀ (c : ResultCache) (key f : String) (now : Int) (v : String),
        ResultCache.get c key f now = some v →
        ∃ entry, c.results key = some entry ∧ entry.etag = f ∧
          now - entry.timestamp ≤ c.ttl ∧ entry.value = v) := by
  constructor
  · intro c key value f1 f2 now1 now2 h
    simp [ResultCache.get, ResultCache.set, h]
  · intro c key f now v h
    unfold ResultCache.get at h
    cases hres : c.results key with
    | none => rw [hres] at h; cases h
    | some entry =>
      rw [hres] at h
      have h' : (if entry.etag ≠ f ∨ c.ttl < now - entry.timestamp then none
          else some entry.value) = some v := h
      by_cases hcond : entry.etag ≠ f ∨ c.ttl < now - entry.timestamp
      · rw [if_pos hcond] at h'; cases h'
      · rw [if_neg hcond] at h'
        push_neg at hcond
        cases h'
        exact ⟨entry, rfl, hcond.1, by linarith [hcond.2], rfl⟩

/-- Witness for C1 at a concrete cache, key and fingerprint pair. -/
theorem c1_result_cache_fingerprint_guard_witness :
    ResultCache.get
      (ResultCache.set { results := fun _ => none, ttl := 10 } "k" "out" "f1" 0) "k" "f2" 3 =
      none :=
  c1_result_cache_fingerprint_guard.1 _ "k" "out" "f1" "f2" 0 3 (by decide)

/-! ## C2: stale archive is NOT served when the probe fails (code bug)

Go's ZipCache.Get returns a nil reader whenever the TTL has elapsed, even
though the archive data is still cached, so the fallback branch in
Fetcher.GetZipReader that its own comment describes (use cached data when the
fingerprint probe failed) can never fire: the probe error is propagated. -/

/-- C2: with an archive present but past its TTL, a failed fingerprint probe
makes GetZipReader return the probe error instead of the stale archive. -/
theorem c2_stale_probe_failure_returns_error
    (env : FetchEnv) (c : ZipCache) (now : Int) (r e : String)
    (hr : c.reader = some r) (hstale : c.ttl < now - c.timestamp)
    (hprobe : env.probeResult = Except.error e) :
    (getZipReader env c now).1 = Except.error ("failed to get ETag: " ++ e) := by
  simp [getZipReader, ZipCache.get, hr, hstale, hprobe]

/-- Witness for C2 at a concrete stale cache and failing probe. -/
theorem c2_stale_probe_failure_returns_error_witness :
    (getZipReader envProbeFail staleCache 100).1 =
      Except.error ("failed to get ETag: " ++ "dial tcp: timeout") :=
  c2_stale_probe_failure_returns_error envProbeFail staleCache 100 "ZIPDATA"
    "dial tcp: timeout" rfl (by decide) rfl

/-! ## C7: matching fingerprint on a TTL miss does NOT avoid the download
(code bug)

On a TTL miss ZipCache.Get hands GetZipReader a nil reader, so the branch
that would return the cached archive when the probed fingerprint equals the
cached one is unreachable and a full download always runs. -/

/-- C7: with an archive present but past its TTL and a probe that returns the
cached fingerprint unchanged, GetZipReader still performs the full download:
a download failure is propagated as the call's error, and a successful
download replaces the cache contents with the downloaded bytes. -/
theorem c7_stale_matching_fingerprint_still_downloads
    (env : FetchEnv) (c : ZipCache) (now : Int) (r : String)
    (hr : c.reader = some r) (hstale : c.ttl < now - c.timestamp)
    (hprobe : env.probeResult = Except.ok c.etag) :
    (∀ e, env.downloadResult = Except.error e → (getZipReader env c now).1 = Except.error e)
    ∧ (∀ data, env.downloadResult = Except.ok data → env.zipValid data = true →
        (getZipReader env c now).2.reader = some data) := by
  constructor
  · intro e hdl
    simp [getZipReader, ZipCache.get, hr, hstale, hprobe, hdl]
  · intro data hdl hvalid
    simp [getZipReader, ZipCache.get, hr, hstale, hprobe, hdl, ZipCache.setData, hvalid]

/-- Witness for C7 at a concrete stale cache whose probe matches. -/
theorem c7_stale_matching_fingerprint_still_downloads_witness :
    (getZipReader envMatch staleCache 100).1 = Except.error "download failed" :=
  (c7_stale_matching_fingerprint_still_downloads envMatch staleCache 100 "ZIPDATA"
    rfl (by decide) rfl).1 "download failed" rfl

/-! ## C4: tag filter semantics -/

/-- Modelled from the claim's words, for comparison with matchesFilter: with a
non-empty filter, a region passes when it contains the at-tag token at a
position before any hash comment marker; an empty filter always passes. -/
def claimMatches (region filter : String) : Bool :=
  if filter = "" then true
  else
    match strIndex region ("@" ++ filter), strIndex region "#" with
    | none, _ => false
    | some _, none => true
    | some fi, some ci => decide (fi < ci)

theorem append_data (s t : String) : (s ++ t).data = s.data ++ t.data := rfl

theorem strIndex_some_drop {s p : String} {i : Nat} (h : strIndex s p = some i) :
    p.data <+: s.data.drop i := by
  obtain ⟨k, hk, hpfx⟩ := idxFrom_spec p.data s.data 0 i h
  have : i = k := by omega
  subst this
  exact (List.isPrefixOf_iff_prefix).1 hpfx

/-- Two patterns with different head characters never match at the same
position of the same string. -/
theorem strIndex_head_ne {s p q : String} {cp cq : Char} {tp tq : List Char}
    (hp : p.data = cp :: tp) (hq : q.data = cq :: tq) (hne : cp ≠ cq)
    {i j : Nat} (hi : strIndex s p = some i) (hj : strIndex s q = some j) : i ≠ j := by
  intro hij
  subst hij
  have h1 := strIndex_some_drop hi
  have h2 := strIndex_some_drop hj
  rw [hp] at h1
  rw [hq] at h2
  cases hd : s.data.drop i with
  | nil =>
    rw [hd] at h1
    exact absurd h1.length_le (by simp)
  | cons c t =>
    rw [hd] at h1
    rw [hd] at h2
    rw [List.cons_prefix_cons] at h1
    rw [List.cons_prefix_cons] at h2
    exact hne (h1.1.trans h2.1.symm)

/-- The C4 claim as stated fails on the code: the rule line whose trailing
region is the letter x followed by the at-cn tag contains the at-cn token
before any hash marker, so the claim includes it under filter cn, but
matchesFilter excludes it because the region does not start with an at sign. -/
theorem c4_filter_cex :
    matchesFilter "x @cn" "cn" = false ∧ claimMatches "x @cn" "cn" = true := by
  constructor <;> rfl

/-- C4 amended: with an empty filter every line passes; with a non-empty
filter a line passes if and only if its trimmed trailing region starts with
an at sign AND contains the at-tag token before any hash comment marker (the
claim's condition applied to the trimmed region). -/
theorem c4_filter_amended (rest filter : String) :
    matchesFilter rest filter =
      (if filter = "" then true
       else startsWithStr (trimStr rest) "@" && claimMatches (trimStr rest) filter) := by
  by_cases hf : filter = ""
  · simp [matchesFilter, claimMatches, hf]
  · by_cases hat : startsWithStr (trimStr rest) "@" = true
    · cases hfi : strIndex (trimStr rest) ("@" ++ filter) with
      | none => simp [matchesFilter, claimMatches, hf, hat, hfi]
      | some fi =>
        cases hci : strIndex (trimStr rest) "#" with
        | none => simp [matchesFilter, claimMatches, hf, hat, hfi, hci]
        | some ci =>
          have hne : fi ≠ ci :=
            @strIndex_head_ne (trimStr rest) ("@" ++ filter) "#" '@' '#'
              filter.data [] rfl rfl (by decide) fi ci hfi hci
          by_cases hlt : ci < fi
          · have h1 : ¬ (fi < ci) := by omega
            simp [matchesFilter, claimMatches, hf, hat, hfi, hci, hlt, h1]
          · have h1 : fi < ci := by omega
            simp [matchesFilter, claimMatches, hf, hat, hfi, hci, hlt, h1]
    · rw [Bool.not_eq_true] at hat
      simp [matchesFilter, claimMatches, hf, hat]

/-! ## C3: danger classification of regexes -/

/-- The precision-losing node kinds named by the claim: a character class, an
alternation, or a bounded repeat. -/
def dangerCore : Regexp → Bool
  | Regexp.charClass => true
  | Regexp.alternate _ => true
  | Regexp.rep _ => true
  | _ => false

/-- Modelled from the claim's words: a node counted as dangerous by the
claim, namely a precision-losing construct or a quantifier (star, plus or
the zero-or-one quantifier) directly wrapping one. -/
def claimNode (re : Regexp) : Bool :=
  dangerCore re ||
  (match re with
   | Regexp.star subs => subs.any dangerCore
   | Regexp.plus subs => subs.any dangerCore
   | Regexp.quest subs => subs.any dangerCore
   | _ => false)

mutual

/-- Modelled from the claim's words: the syntax tree contains, anywhere, a
node that claimNode counts as dangerous. -/
def claimContains (re : Regexp) : Bool :=
  claimNode re ||
  (match re with
   | Regexp.capture subs => claimContainsList subs
   | Regexp.star subs => claimContainsList subs
   | Regexp.plus subs => claimContainsList subs
   | Regexp.quest subs => claimContainsList subs
   | Regexp.rep subs => claimContainsList subs
   | Regexp.concat subs => claimContainsList subs
   | Regexp.alternate subs => claimContainsList subs
   | _ => false)

/-- Containment over a list of children, for claimContains. -/
def claimContainsList : List Regexp → Bool
  | [] => false
  | r :: rs => claimContains r || claimContainsList rs

end

/-- Modelled from the claim's words: the translated wildcard string is
composed entirely of wildcard characters and dots with no literal anchor
text, or contains three or more question marks. -/
def claimBroad (s : String) : Bool :=
  (!s.data.isEmpty && s.data.all fun c => c = '*' || c = '?' || c = '.') ||
    decide (3 ≤ s.data.count '?')

/-- The claim's characterization of IsDangerousRegex, after the parse step. -/
def claimDangerous : Option Regexp → Bool
  | none => true
  | some re => claimContains re || claimBroad (convertNode re)

mutual

/-- The structural check as the amended claim words it: the tree holds a
precision-losing construct at a position reachable without entering a
zero-or-one quantifier subtree. -/
def containsOutsideQuest (re : Regexp) : Bool :=
  dangerCore re ||
  (match re with
   | Regexp.capture subs => listOutsideQuest subs
   | Regexp.star subs => listOutsideQuest subs
   | Regexp.plus subs => listOutsideQuest subs
   | Regexp.rep subs => listOutsideQuest subs
   | Regexp.concat subs => listOutsideQuest subs
   | Regexp.alternate subs => listOutsideQuest subs
   | _ => false)

/-- Containment over children, for containsOutsideQuest. -/
def listOutsideQuest : List Regexp → Bool
  | [] => false
  | r :: rs => containsOutsideQuest r || listOutsideQuest rs

end

/-- The broadness check as the amended claim words it: nonempty and made only
of stars and question marks (a dot counts as literal anchor text), or three
or more question marks. -/
def amendedBroad (s : String) : Bool :=
  (!s.data.isEmpty && s.data.all fun c => c = '*' || c = '?') ||
    decide (3 ≤ s.data.count '?')

mutual

theorem containsDangerous_eq_outsideQuest :
    (re : Regexp) → containsDangerousNode re = containsOutsideQuest re
  | Regexp.noMatch => rfl
  | Regexp.emptyMatch => rfl
  | Regexp.lit _ => rfl
  | Regexp.charClass => rfl
  | Regexp.anyCharNotNL => rfl
  | Regexp.anyChar => rfl
  | Regexp.beginLine => rfl
  | Regexp.endLine => rfl
  | Regexp.beginText => rfl
  | Regexp.endText => rfl
  | Regexp.wordBoundary => rfl
  | Regexp.noWordBoundary => rfl
  | Regexp.capture subs => by
      rw [show containsDangerousNode (Regexp.capture subs) = anyDangerous subs from rfl]
      rw [anyDangerous_eq_listOutsideQuest subs]
      rfl
  | Regexp.star subs => by
      rw [show containsDangerousNode (Regexp.star subs) = anyDangerous subs from rfl]
      rw [anyDangerous_eq_listOutsideQuest subs]
      rfl
  | Regexp.plus subs => by
      rw [show containsDangerousNode (Regexp.plus subs) = anyDangerous subs from rfl]
      rw [anyDangerous_eq_listOutsideQuest subs]
      rfl
  | Regexp.quest _ => rfl
  | Regexp.rep _ => rfl
  | Regexp.concat subs => by
      rw [show containsDangerousNode (Regexp.concat subs) = anyDangerous subs from rfl]
      rw [anyDangerous_eq_listOutsideQuest subs]
      rfl
  | Regexp.alternate _ => rfl

theorem anyDangerous_eq_listOutsideQuest :
    (l : List Regexp) → anyDangerous l = listOutsideQuest l
  | [] => rfl
  | r :: rs => by
      rw [show anyDangerous (r :: rs) = (containsDangerousNode r || anyDangerous rs) from rfl]
      rw [containsDangerous_eq_outsideQuest r]
      rw [anyDangerous_eq_listOutsideQuest rs]
      rfl

end

theorem broadLoop_spec (cs : List Char) :
    ∀ (w : Bool) (q : Nat),
      broadLoop cs w q = (w && cs.all (fun c => c = '*' || c = '?'), q + cs.count '?') := by
  induction cs with
  | nil => intro w q; simp [broadLoop]
  | cons c t ih =>
    intro w q
    by_cases h1 : c = '*'
    · subst h1
      rw [show broadLoop ('*' :: t) w q = broadLoop t w q from by
        rw [broadLoop, if_pos rfl]]
      rw [ih]
      simp [List.count_cons, Prod.mk.injEq]
    · by_cases h2 : c = '?'
      · subst h2
        rw [show broadLoop ('?' :: t) w q = broadLoop t w (q + 1) from by
          rw [broadLoop, if_neg (by decide), if_pos rfl]]
        rw [ih]
        simp only [List.all_cons, List.count_cons, Prod.mk.injEq]
        refine ⟨by simp, ?_⟩
        simp
        omega
      · rw [show broadLoop (c :: t) w q = broadLoop t false q from by
          rw [broadLoop, if_neg h1, if_neg h2]
          split <;> rfl]
        rw [ih]
        simp only [List.all_cons, List.count_cons, Prod.mk.injEq]
        refine ⟨by simp [h1, h2], by simp [h2]⟩

theorem isBroad_eq_amended (s : String) : isBroadPattern s = amendedBroad s := by
  rw [isBroadPattern, amendedBroad]
  rw [broadLoop_spec]
  simp only [Bool.true_and, Nat.zero_add]
  cases hall : s.data.all (fun c => c = '*' || c = '?') <;>
    cases hemp : s.data.isEmpty <;>
      by_cases h3 : 3 ≤ s.data.count '?' <;>
        simp [hall, hemp, h3]

/-- The C3 claim as stated fails on the code at two concrete syntax trees: a
literal followed by a zero-or-one-quantified character class (the claim's
structural clause counts the contained character class, the code never
descends into a zero-or-one quantifier and its translated pattern keeps its
literal anchor), and a tree translating to question-question-dot-star (the
claim's broadness clause counts a string of wildcards and dots, the code
treats the dot as literal anchor text). -/
theorem c3_dangerous_cex :
    (IsDangerousRegexOn (some reQuest) = false ∧ claimDangerous (some reQuest) = true)
    ∧ (IsDangerousRegexOn (some reDots) = false ∧ claimDangerous (some reDots) = true) :=
  ⟨⟨rfl, rfl⟩, ⟨rfl, rfl⟩⟩

/-- C3 amended: IsDangerousRegex holds exactly when (a) the pattern does not
parse, or (b) the tree holds a character class, alternation or bounded repeat
at a position reachable without entering a zero-or-one-quantifier subtree, or
(c) the translated wildcard string is nonempty and composed entirely of stars
and question marks (a dot counts as literal anchor text) or contains three or
more question marks. -/
theorem c3_dangerous_amended (o : Option Regexp) :
    IsDangerousRegexOn o = true ↔
      (o = none ∨ ∃ re, o = some re ∧
        (containsOutsideQuest re = true ∨ amendedBroad (convertNode re) = true)) := by
  cases o with
  | none => simp [IsDangerousRegexOn]
  | some re =>
    rw [show IsDangerousRegexOn (some re) =
        (containsDangerousNode re || isBroadPattern (convertNode re)) from rfl]
    rw [containsDangerous_eq_outsideQuest, isBroad_eq_amended]
    simp [Bool.or_eq_true]

/-! ## C6: rendering of regex rules -/

theorem trimStr_data_head {s : String} {c : Char} {t : List Char}
    (h : s.data = c :: t) (hws : ¬ c.isWhitespace) :
    ∃ t', (trimStr s).data = c :: t' := by
  have h2 : trimStr s = trimStr (String.mk (c :: t)) := by rw [trimStr, trimStr, h]
  rw [h2]
  exact trimStr_head_keep hws t

theorem startsWith_hash_of_head {s : String} {t : List Char} (h : s.data = '#' :: t) :
    startsWithStr (trimStr s) "#" = true := by
  obtain ⟨t', ht⟩ := trimStr_data_head h (by decide)
  rw [startsWithStr_iff, ht]
  exact ⟨t', rfl⟩

theorem not_startsWith_hash_of_head {s : String} {c : Char} {t : List Char}
    (h : s.data = c :: t) (hws : ¬ c.isWhitespace) (hc : c ≠ '#') :
    startsWithStr (trimStr s) "#" = false := by
  obtain ⟨t', ht⟩ := trimStr_data_head h hws
  exact startsWithStr_head_ne ht rfl (fun he => hc he.symm)

theorem appendComment_data_head {line : String} (comment : String) {c : Char} {t : List Char}
    (h : line.data = c :: t) :
    ∃ u, (appendComment line comment).data = c :: u := by
  rw [appendComment]
  by_cases h1 : comment = ""
  · rw [if_pos h1]
    exact ⟨t, h⟩
  · rw [if_neg h1]
    by_cases h2 : startsWithStr comment "#" = true
    · rw [if_pos h2]
      exact ⟨t ++ (" " ++ comment).data, by
        simp [append_data, h, List.append_assoc]⟩
    · rw [if_neg h2]
      exact ⟨t ++ (" # " ++ comment).data, by
        simp [append_data, h, List.append_assoc]⟩

theorem ne_empty_of_data {s : String} {c : Char} {t : List Char} (h : s.data = c :: t) :
    ¬ (s = "") := by
  intro he
  rw [he] at h
  exact List.noConfusion h

/-- The C6 claim as stated fails on the code: a rule whose regex is judged
dangerous, when it is the last item of the sequence, contributes nothing to
the Surge output at all (the diagnostic comment line is buffered as a pending
comment and never flushed), so it IS silently dropped. -/
theorem c6_render_cex :
    IsDangerousRegex parseEx "[a-z]+\\.example\\.com" = true ∧
    RenderSurge parseEx
      [Item.rule ⟨RuleKind.domainRegex, "[a-z]+\\.example\\.com", ""⟩] = "" :=
  ⟨rfl, rfl⟩

/-- C6 amended: a Surge-dialect regex rule judged dangerous is rendered by
renderSurgeRule as a commented-out line tagged DANGEROUS-REGEX (and the
SKIPPED-DOMAIN-WILDCARD branch is unreachable, because a non-dangerous regex
never translates to a pure-wildcard pattern); RenderSurge buffers that
commented line as the pending comment, so it reaches the output exactly when
a later enabled rule line flushes it: a dangerous regex that is the final
item is dropped, while one followed by an enabled rule appears commented out
immediately before that rule. In the Mihomo dialect the rule is emitted
natively as DOMAIN-REGEX with no translation. -/
theorem c6_render_amended (parse : String → Option Regexp) (r : Rule)
    (hk : r.kind = RuleKind.domainRegex) :
    (IsDangerousRegex parse r.value = true →
        renderSurgeRule parse r = appendComment ("# DANGEROUS-REGEX," ++ r.value) r.comment)
    ∧ (IsDangerousRegex parse r.value = false →
        skipPatternMatch (RegexToWildcard parse r.value) = false)
    ∧ renderMihomoRule r = appendComment ("DOMAIN-REGEX," ++ r.value) r.comment
    ∧ (IsDangerousRegex parse r.value = true →
        RenderSurge parse [Item.rule r] = "")
    ∧ (IsDangerousRegex parse r.value = true → r.comment = "" → ∀ v : String,
        RenderSurge parse
          [Item.rule r,
           Item.rule { kind := RuleKind.domainSuffix, value := v, comment := "" }] =
          "# DANGEROUS-REGEX," ++ r.value ++ "\n" ++ ("DOMAIN-SUFFIX," ++ v)) := by
  have hline : IsDangerousRegex parse r.value = true →
      renderSurgeRule parse r = appendComment ("# DANGEROUS-REGEX," ++ r.value) r.comment := by
    intro hd
    simp [renderSurgeRule, hk, hd]
  have hdata : ("# DANGEROUS-REGEX," ++ r.value).data =
      '#' :: (" DANGEROUS-REGEX,".data ++ r.value.data) := rfl
  refine ⟨hline, ?_, ?_, ?_, ?_⟩
  · intro hfalse
    rw [IsDangerousRegex] at hfalse
    cases hp : parse (trimSlashes r.value) with
    | none => rw [hp] at hfalse; exact absurd hfalse (by simp [IsDangerousRegexOn])
    | some re =>
      rw [hp] at hfalse
      have hor : (containsDangerousNode re || isBroadPattern (convertNode re)) = false := hfalse
      rw [Bool.or_eq_false_iff] at hor
      have hbroad := hor.2
      rw [RegexToWildcard, hp]
      show skipPatternMatch (convertNode re) = false
      by_contra hcon
      rw [Bool.not_eq_false, skipPatternMatch, Bool.and_eq_true] at hcon
      obtain ⟨hne, hall⟩ := hcon
      simp only [Bool.not_eq_true'] at hne
      have hall2 : (convertNode re).data.all (fun c => c = '*' || c = '?') = true := by
        rw [List.all_eq_true] at hall ⊢
        intro x hx
        have h3 := hall x hx
        rcases Bool.or_eq_true_iff.1 h3 with h4 | h4
        · exact Bool.or_eq_true_iff.2 (Or.inr h4)
        · exact Bool.or_eq_true_iff.2 (Or.inl h4)
      rw [isBroadPattern, broadLoop_spec] at hbroad
      simp [hall2, hne] at hbroad
  · simp [renderMihomoRule, hk]
  · intro hd
    have hl := hline hd
    obtain ⟨u, hu⟩ := appendComment_data_head r.comment hdata
    rw [← hl] at hu
    have hsw : startsWithStr (trimStr (renderSurgeRule parse r)) "#" = true :=
      startsWith_hash_of_head hu
    simp [RenderSurge, renderItems, renderStep, hsw, joinLines]
  · intro hd hc v
    have hl := hline hd
    rw [hc] at hl
    rw [show appendComment ("# DANGEROUS-REGEX," ++ r.value) "" =
        "# DANGEROUS-REGEX," ++ r.value from rfl] at hl
    have hu : (renderSurgeRule parse r).data =
        '#' :: (" DANGEROUS-REGEX,".data ++ r.value.data) := by rw [hl]; exact hdata
    have hsw : startsWithStr (trimStr (renderSurgeRule parse r)) "#" = true :=
      startsWith_hash_of_head hu
    have hline2 : renderSurgeRule parse
        { kind := RuleKind.domainSuffix, value := v, comment := "" } =
        "DOMAIN-SUFFIX," ++ v := by
      simp [renderSurgeRule, appendComment]
    have hdata2 : ("DOMAIN-SUFFIX," ++ v).data = 'D' :: ("OMAIN-SUFFIX,".data ++ v.data) := rfl
    have hsw2 : startsWithStr (trimStr (renderSurgeRule parse
        { kind := RuleKind.domainSuffix, value := v, comment := "" })) "#" = false := by
      rw [hline2]
      exact not_startsWith_hash_of_head hdata2 (by decide) (by decide)
    have hnz : ¬ (renderSurgeRule parse r = "") := ne_empty_of_data hu
    simp only [RenderSurge, renderItems, List.foldl_cons, List.foldl_nil, renderStep,
      hsw, hsw2, if_true, if_false]
    simp [hnz, joinLines, hl, hline2]

/-- Witness for C6 amended at the concrete dangerous pattern of the spec. -/
theorem c6_render_amended_witness :
    RenderSurge parseEx
      [Item.rule ⟨RuleKind.domainRegex, "[a-z]+\\.example\\.com", ""⟩] = "" :=
  (c6_render_amended parseEx ⟨RuleKind.domainRegex, "[a-z]+\\.example\\.com", ""⟩
      rfl).2.2.2.1 rfl

/-! ## C10: pending-comment buffering in the renderers -/

theorem renderStep_ordinary (rr : Rule → String) (st : RenderState) (text : String)
    (h : startsWithStr (trimStr text) "# include:" = false) :
    renderStep rr st (Item.comment text) = { st with pending := text } := by
  simp [renderStep, h]

theorem renderStep_result_comment (rr : Rule → String) (st : RenderState) (text : String) :
    (renderStep rr st (Item.comment text)).result = st.result := by
  rw [renderStep]
  split <;> rfl

theorem foldl_two_comments (rr : Rule → String) (st : RenderState) (c1 c2 : String)
    (post : List Item)
    (h1 : startsWithStr (trimStr c1) "# include:" = false)
    (h2 : startsWithStr (trimStr c2) "# include:" = false) :
    List.foldl (renderStep rr) st (Item.comment c1 :: Item.comment c2 :: post) =
      List.foldl (renderStep rr) st (Item.comment c2 :: post) := by
  rw [List.foldl_cons, List.foldl_cons, List.foldl_cons]
  rw [renderStep_ordinary rr st c1 h1]
  rw [renderStep_ordinary rr _ c2 h2, renderStep_ordinary rr st c2 h2]

theorem renderItems_collapse (rr : Rule → String) (pre post : List Item) (c1 c2 : String)
    (h1 : startsWithStr (trimStr c1) "# include:" = false)
    (h2 : startsWithStr (trimStr c2) "# include:" = false) :
    renderItems rr (pre ++ (Item.comment c1 :: Item.comment c2 :: post)) =
      renderItems rr (pre ++ (Item.comment c2 :: post)) := by
  rw [renderItems, renderItems, List.foldl_append, List.foldl_append,
    foldl_two_comments rr _ c1 c2 post h1 h2]

theorem renderItems_trailing (rr : Rule → String) (items : List Item) (text : String) :
    renderItems rr (items ++ [Item.comment text]) = renderItems rr items := by
  rw [renderItems, renderItems, List.foldl_append, List.foldl_cons, List.foldl_nil]
  congr 1
  exact renderStep_result_comment rr _ text

/-- C10: both renderers buffer at most one pending ordinary comment: two
consecutive ordinary (non-include-echo) comments render exactly as the second
alone (the first never reaches the output), and a comment item after the
final rule of the sequence leaves the output unchanged. -/
theorem c10_comment_buffering :
    (∀ (parse : String → Option Regexp) (pre post : List Item) (c1 c2 : String),
        startsWithStr (trimStr c1) "# include:" = false →
        startsWithStr (trimStr c2) "# include:" = false →
        RenderSurge parse (pre ++ (Item.comment c1 :: Item.comment c2 :: post)) =
          RenderSurge parse (pre ++ (Item.comment c2 :: post)))
    ∧ (∀ (parse : String → Option Regexp) (items : List Item) (text : String),
        RenderSurge parse (items ++ [Item.comment text]) = RenderSurge parse items)
    ∧ (∀ (pre post : List Item) (c1 c2 : String),
        startsWithStr (trimStr c1) "# include:" = false →
        startsWithStr (trimStr c2) "# include:" = false →
        RenderMihomo (pre ++ (Item.comment c1 :: Item.comment c2 :: post)) =
          RenderMihomo (pre ++ (Item.comment c2 :: post)))
    ∧ (∀ (items : List Item) (text : String),
        RenderMihomo (items ++ [Item.comment text]) = RenderMihomo items) :=
  ⟨fun parse pre post c1 c2 h1 h2 =>
      renderItems_collapse (renderSurgeRule parse) pre post c1 c2 h1 h2,
   fun parse items text => renderItems_trailing (renderSurgeRule parse) items text,
   fun pre post c1 c2 h1 h2 => renderItems_collapse renderMihomoRule pre post c1 c2 h1 h2,
   fun items text => renderItems_trailing renderMihomoRule items text⟩

/-- Witness for C10 at a concrete comment pair and rule. -/
theorem c10_comment_buffering_witness :
    RenderMihomo [Item.comment "# one", Item.comment "# two",
        Item.rule ⟨RuleKind.domainSuffix, "b.com", ""⟩] =
      RenderMihomo [Item.comment "# two", Item.rule ⟨RuleKind.domainSuffix, "b.com", ""⟩] :=
  c10_comment_buffering.2.2.1 [] [Item.rule ⟨RuleKind.domainSuffix, "b.com", ""⟩]
    "# one" "# two" rfl rfl

/-! ## C5: include resolution -/

theorem startsWithStr_of_data_append {s p : String} {t : List Char}
    (h : s.data = p.data ++ t) : startsWithStr s p = true := by
  rw [startsWithStr_iff, h]
  exact ⟨t, rfl⟩

/-- C5: an include line fetches the named member through the content
accessor; parseInclude contributes nothing when the recursive parse (run with
the same filter) yields no Rule item, and otherwise contributes exactly the
synthetic echo comment followed by the sub-items in order; the Parse line
loop splices that contribution in place of the include line. -/
theorem c5_include_contribution (c : Converter) (fuel : Nat) (rest : List String)
    (line filter sub : String) (subItems : List Item)
    (hTrim : trimStr line = line)
    (hInc : startsWithStr line "include:" = true)
    (hget : c.getFile (trimPfx ((splitN2 line).headD "") "include:") = Except.ok sub)
    (hsub : Parse c fuel sub filter = Except.ok subItems) :
    parseInclude c fuel line filter =
      (if hasRules subItems then Except.ok (Item.comment ("# " ++ line) :: subItems)
       else Except.ok [])
    ∧ parseGo c (fuel + 1) (line :: rest) filter =
      (match parseGo c fuel rest filter with
       | Except.error e => Except.error e
       | Except.ok items =>
         Except.ok ((if hasRules subItems then Item.comment ("# " ++ line) :: subItems
           else []) ++ items)) := by
  obtain ⟨t, ht⟩ := (startsWithStr_iff line "include:").1 hInc
  obtain ⟨t, ht⟩ : ∃ u, line.data = "include:".data ++ u := ⟨t, ht.symm⟩
  have hd : line.data = 'i' :: ("nclude:".data ++ t) := by rw [ht]; rfl
  have hne : ¬ (line = "") := ne_empty_of_data hd
  have hHash : startsWithStr line "#" = false := startsWithStr_head_ne hd rfl (by decide)
  have hDom : startsWithStr line "domain:" = false := startsWithStr_head_ne hd rfl (by decide)
  have hFull : startsWithStr line "full:" = false := startsWithStr_head_ne hd rfl (by decide)
  have hKey : startsWithStr line "keyword:" = false := startsWithStr_head_ne hd rfl (by decide)
  have hReg : startsWithStr line "regexp:" = false := startsWithStr_head_ne hd rfl (by decide)
  have hsub' : parseGo c fuel (splitLines sub) filter = Except.ok subItems := hsub
  constructor
  · rw [parseInclude]
    rw [hget]
    cases hr : hasRules subItems <;> simp [hsub, hr]
  · rw [parseGo]
    simp only [hTrim, hne, if_false, hHash, hDom, hFull, hKey, hReg, hInc, if_true,
      Bool.false_eq_true, if_neg]
    rw [hget]
    simp only [hsub']

/-- Witness for C5: a concrete include whose member holds one rule. -/
theorem c5_include_contribution_witness :
    parseGo cEx 2 ["include:sub"] "" =
      Except.ok [Item.comment "# include:sub",
        Item.rule ⟨RuleKind.domainSuffix, "a.com", ""⟩] := by
  have h := (c5_include_contribution cEx 1 [] "include:sub" "" "domain:a.com"
      [Item.rule ⟨RuleKind.domainSuffix, "a.com", ""⟩] rfl rfl rfl rfl).2
  simpa using h

/-! ## C8: line classification -/

/-- The first space-separated token of a line, the headD of the SplitN parts. -/
def firstTok (s : String) : String := (splitN2 s).headD ""

/-- The remaining text of a line after its first token, the second SplitN
part when one exists. -/
def lineRest (s : String) : String :=
  match splitN2 s with
  | _ :: r :: _ => r
  | _ => ""

theorem parseGo_nil (c : Converter) (fuel : Nat) (filter : String) :
    parseGo c fuel [] filter = Except.ok [] := by
  cases fuel <;> rfl

theorem matchesFilter_empty (rest : String) : matchesFilter rest "" = true := rfl

theorem parseRuleLine_empty_filter (l pfx : String) (kind : RuleKind) :
    parseRuleLine l pfx kind "" =
      some ⟨kind, if pfx = "" then firstTok l else trimPfx (firstTok l) pfx, lineRest l⟩ := by
  rw [parseRuleLine]
  rw [if_pos (matchesFilter_empty _)]
  rfl

theorem data_head_of_startsWith {s p : String} {c : Char} {tp : List Char}
    (h : startsWithStr s p = true) (hp : p.data = c :: tp) :
    ∃ u, s.data = c :: u := by
  obtain ⟨t, ht⟩ := (startsWithStr_iff s p).1 h
  exact ⟨tp ++ t, by rw [← ht, hp]; rfl⟩

/-- C8: per-line classification of Parse under the empty filter: a hash line
becomes a Comment; a line with a recognized kind marker becomes a Rule of the
matching kind whose value is the marker-stripped first token and whose
comment region is the remaining text; a bare non-include line defaults to the
domain-suffix kind; and the Surge dialect renders the two spec examples to
their expected lines. -/
theorem c8_line_classification (c : Converter) (fuel : Nat) (l : String)
    (hTrim : trimStr l = l) (hne : ¬ (l = "")) :
    (startsWithStr l "#" = true →
        parseGo c (fuel + 1) [l] "" = Except.ok [Item.comment l])
    ∧ (startsWithStr l "domain:" = true →
        parseGo c (fuel + 1) [l] "" =
          Except.ok [Item.rule ⟨RuleKind.domainSuffix, trimPfx (firstTok l) "domain:", lineRest l⟩])
    ∧ (startsWithStr l "full:" = true →
        parseGo c (fuel + 1) [l] "" =
          Except.ok [Item.rule ⟨RuleKind.domain, trimPfx (firstTok l) "full:", lineRest l⟩])
    ∧ (startsWithStr l "keyword:" = true →
        parseGo c (fuel + 1) [l] "" =
          Except.ok [Item.rule ⟨RuleKind.domainKeyword, trimPfx (firstTok l) "keyword:", lineRest l⟩])
    ∧ (startsWithStr l "regexp:" = true →
        parseGo c (fuel + 1) [l] "" =
          Except.ok [Item.rule ⟨RuleKind.domainRegex, trimPfx (firstTok l) "regexp:", lineRest l⟩])
    ∧ (startsWithStr l "#" = false → startsWithStr l "domain:" = false →
        startsWithStr l "full:" = false → startsWithStr l "keyword:" = false →
        startsWithStr l "regexp:" = false → startsWithStr l "include:" = false →
        parseGo c (fuel + 1) [l] "" =
          Except.ok [Item.rule ⟨RuleKind.domainSuffix, firstTok l, lineRest l⟩])
    ∧ (∀ parse, Convert c (fuel + 1) parse "domain:example.com" "" =
        Except.ok "DOMAIN-SUFFIX,example.com")
    ∧ (∀ parse, Convert c (fuel + 1) parse "full:example.com" "" =
        Except.ok "DOMAIN,example.com") := by
  refine ⟨?_, ?_, ?_, ?_, ?_, ?_, ?_, ?_⟩
  · intro h
    rw [parseGo, parseGo_nil]
    simp only [hTrim]
    rw [if_neg hne, if_pos h]
  · intro h
    obtain ⟨u, hd⟩ := data_head_of_startsWith h (show "domain:".data = 'd' :: "omain:".data from rfl)
    have hHash : startsWithStr l "#" = false := startsWithStr_head_ne hd rfl (by decide)
    rw [parseGo, parseGo_nil]
    simp only [hTrim]
    rw [if_neg hne, hHash, if_neg (by simp), if_pos h, parseRuleLine_empty_filter]
    rfl
  · intro h
    obtain ⟨u, hd⟩ := data_head_of_startsWith h (show "full:".data = 'f' :: "ull:".data from rfl)
    have hHash : startsWithStr l "#" = false := startsWithStr_head_ne hd rfl (by decide)
    have hDom : startsWithStr l "domain:" = false := startsWithStr_head_ne hd rfl (by decide)
    rw [parseGo, parseGo_nil]
    simp only [hTrim]
    rw [if_neg hne, hHash, if_neg (by simp), hDom, if_neg (by simp), if_pos h,
      parseRuleLine_empty_filter]
    rfl
  · intro h
    obtain ⟨u, hd⟩ := data_head_of_startsWith h (show "keyword:".data = 'k' :: "eyword:".data from rfl)
    have hHash : startsWithStr l "#" = false := startsWithStr_head_ne hd rfl (by decide)
    have hDom : startsWithStr l "domain:" = false := startsWithStr_head_ne hd rfl (by decide)
    have hFull : startsWithStr l "full:" = false := startsWithStr_head_ne hd rfl (by decide)
    rw [parseGo, parseGo_nil]
    simp only [hTrim]
    rw [if_neg hne, hHash, if_neg (by simp), hDom, if_neg (by simp), hFull, if_neg (by simp),
      if_pos h, parseRuleLine_empty_filter]
    rfl
  · intro h
    obtain ⟨u, hd⟩ := data_head_of_startsWith h (show "regexp:".data = 'r' :: "egexp:".data from rfl)
    have hHash : startsWithStr l "#" = false := startsWithStr_head_ne hd rfl (by decide)
    have hDom : startsWithStr l "domain:" = false := startsWithStr_head_ne hd rfl (by decide)
    have hFull : startsWithStr l "full:" = false := startsWithStr_head_ne hd rfl (by decide)
    have hKey : startsWithStr l "keyword:" = false := startsWithStr_head_ne hd rfl (by decide)
    rw [parseGo, parseGo_nil]
    simp only [hTrim]
    rw [if_neg hne, hHash, if_neg (by simp), hDom, if_neg (by simp), hFull, if_neg (by simp),
      hKey, if_neg (by simp), if_pos h, parseRuleLine_empty_filter]
    rfl
  · intro h1 h2 h3 h4 h5 h6
    rw [parseGo, parseGo_nil]
    simp only [hTrim]
    rw [if_neg hne, h1, if_neg (by simp), h2, if_neg (by simp), h3, if_neg (by simp),
      h4, if_neg (by simp), h5, if_neg (by simp), h6, if_neg (by simp),
      parseRuleLine_empty_filter]
    rfl
  · intro parse
    have hp : parseGo c (fuel + 1) ["domain:example.com"] "" =
        Except.ok [Item.rule ⟨RuleKind.domainSuffix, "example.com", ""⟩] := by
      rw [parseGo, parseGo_nil]
      rfl
    rw [Convert]
    rw [show Parse c (fuel + 1) "domain:example.com" "" =
      parseGo c (fuel + 1) ["domain:example.com"] "" from rfl]
    rw [hp]
    rfl
  · intro parse
    have hp : parseGo c (fuel + 1) ["full:example.com"] "" =
        Except.ok [Item.rule ⟨RuleKind.domain, "example.com", ""⟩] := by
      rw [parseGo, parseGo_nil]
      rfl
    rw [Convert]
    rw [show Parse c (fuel + 1) "full:example.com" "" =
      parseGo c (fuel + 1) ["full:example.com"] "" from rfl]
    rw [hp]
    rfl

/-- Witness for C8 at a concrete prefixed line. -/
theorem c8_line_classification_witness :
    parseGo cErr 1 ["domain:example.com @cn"] "" =
      Except.ok [Item.rule ⟨RuleKind.domainSuffix, "example.com", "@cn"⟩] := by
  have h := ((c8_line_classification cErr 0 "domain:example.com @cn" rfl
      (by decide)).2.1) rfl
  simpa using h

/-! ## C9: rule values -/

/-- The first token of a character list: everything before the first space. -/
def firstTokList (l : List Char) : List Char :=
  match breakAtSpace l with
  | none => l
  | some x => x.1

theorem firstTok_data (s : String) : (firstTok s).data = firstTokList s.data := by
  rw [firstTok, splitN2, firstTokList]
  cases h : breakAtSpace s.data with
  | none => rfl
  | some x => rfl

theorem firstTokList_keeps (p : List Char) (hp : ∀ ch ∈ p, ch ≠ ' ') :
    ∀ l, p <+: l → p <+: firstTokList l := by
  induction p with
  | nil => intro l _; exact List.nil_prefix
  | cons c p' ih =>
    intro l hpre
    cases l with
    | nil =>
      obtain ⟨t, ht⟩ := hpre
      cases ht
    | cons d l' =>
      rw [List.cons_prefix_cons] at hpre
      obtain ⟨hcd, hp'⟩ := hpre
      subst hcd
      have hc : c ≠ ' ' := hp c (List.mem_cons_self _ _)
      have hrec := ih (fun ch hm => hp ch (List.mem_cons_of_mem _ hm)) l' hp'
      rw [firstTokList] at hrec ⊢
      rw [breakAtSpace, if_neg hc]
      cases hb : breakAtSpace l' with
      | none =>
        rw [hb] at hrec
        exact List.cons_prefix_cons.2 ⟨rfl, hp'⟩
      | some ab =>
        rw [hb] at hrec
        exact List.cons_prefix_cons.2 ⟨rfl, hrec⟩

theorem trimPfx_ne_empty_of_proper {tok p : String} (h : startsWithStr tok p = true)
    (hne : ¬ (tok = p)) : ¬ (trimPfx tok p = "") := by
  obtain ⟨t, ht⟩ := (startsWithStr_iff tok p).1 h
  intro hemp
  rw [trimPfx, if_pos h] at hemp
  have hlist : tok.data.drop p.data.length = [] := congrArg String.data hemp
  rw [← ht, List.drop_left] at hlist
  subst hlist
  exact hne (String.ext (by rw [← ht]; simp))

theorem firstTok_ne_empty {l : String} (hTrim : trimStr l = l) (hne : ¬ (l = "")) :
    ¬ (firstTok l = "") := by
  obtain ⟨c, t, hd, hws⟩ := trimmed_head hTrim hne
  have hc : c ≠ ' ' := fun h => hws (by rw [h]; decide)
  intro h
  have hdata : (firstTok l).data = [] := congrArg String.data h
  rw [firstTok_data, firstTokList, hd, breakAtSpace, if_neg hc] at hdata
  cases hb : breakAtSpace t with
  | none => rw [hb] at hdata; cases hdata
  | some ab => rw [hb] at hdata; cases hdata

theorem parseRuleLine_some_value {l pfx : String} {kind : RuleKind} {filter : String} {r : Rule}
    (h : parseRuleLine l pfx kind filter = some r) :
    r.value = (if pfx = "" then firstTok l else trimPfx (firstTok l) pfx) := by
  rw [parseRuleLine] at h
  by_cases hm : matchesFilter (match splitN2 l with
      | _ :: r :: _ => r
      | _ => "") filter = true
  · rw [if_pos hm] at h
    cases h
    rfl
  · rw [if_neg hm] at h
    cases h

theorem prefixed_value_ne {l pfx : String} {kind : RuleKind} {filter : String} {r : Rule}
    (hp : startsWithStr l pfx = true)
    (hsp : ∀ ch ∈ pfx.data, ch ≠ ' ')
    (hpne : ¬ (pfx = ""))
    (htokne : ¬ (firstTok l = pfx))
    (h : parseRuleLine l pfx kind filter = some r) :
    ¬ (r.value = "") := by
  rw [parseRuleLine_some_value h, if_neg hpne]
  have htok : startsWithStr (firstTok l) pfx = true := by
    rw [startsWithStr_iff, firstTok_data]
    exact firstTokList_keeps pfx.data hsp l.data ((startsWithStr_iff l pfx).1 hp)
  exact trimPfx_ne_empty_of_proper htok htokne

theorem default_value_ne {l : String} {kind : RuleKind} {filter : String} {r : Rule}
    (hTrim : trimStr l = l) (hne : ¬ (l = ""))
    (h : parseRuleLine l "" kind filter = some r) :
    ¬ (r.value = "") := by
  rw [parseRuleLine_some_value h, if_pos rfl]
  exact firstTok_ne_empty hTrim hne

theorem consRule_ok {r? : Option Rule} {res : Except String (List Item)} {items : List Item}
    (h : consRule r? res = Except.ok items) :
    ∃ items', res = Except.ok items' ∧
      (items = items' ∨ ∃ r, r? = some r ∧ items = Item.rule r :: items') := by
  cases res with
  | error e => rw [consRule] at h; cases h
  | ok prev =>
    cases r? with
    | none =>
      rw [consRule] at h
      cases h
      exact ⟨_, rfl, Or.inl rfl⟩
    | some r =>
      rw [consRule] at h
      cases h
      exact ⟨_, rfl, Or.inr ⟨r, rfl, rfl⟩⟩

/-- A trimmed line whose first token is exactly a bare kind marker: the lines
on which Parse produces an empty rule value. -/
def badToken (tok : String) : Bool :=
  tok = "domain:" || tok = "full:" || tok = "keyword:" || tok = "regexp:"

theorem dropWhile_head_false (p : Char → Bool) :
    ∀ (l : List Char) (c : Char) (t : List Char), l.dropWhile p = c :: t → p c = false := by
  intro l
  induction l with
  | nil => intro c t h; cases h
  | cons a as ih =>
    intro c t h
    rw [List.dropWhile_cons] at h
    by_cases hp : p a = true
    · rw [if_pos hp] at h
      exact ih c t h
    · rw [if_neg hp] at h
      injection h with h1 h2
      rw [← h1]
      cases hpa : p a with
      | false => rfl
      | true => exact absurd hpa hp

theorem trimStr_head_not_ws {s : String} (h : ¬ (trimStr s = "")) :
    ∃ c t, (trimStr s).data = c :: t ∧ ¬ c.isWhitespace := by
  rcases hx : s.data.dropWhile Char.isWhitespace with _ | ⟨c, t⟩
  · exact absurd (String.ext (by rw [trimStr, hx]; rfl)) h
  · have hc : Char.isWhitespace c = false := dropWhile_head_false _ _ _ _ hx
    have hdata : (trimStr s).data = dropTrailingWs (c :: t) := by rw [trimStr, hx]
    rw [dropTrailingWs] at hdata
    by_cases hr : (dropTrailingWs t).isEmpty = true
    · rw [if_pos hr] at hdata
      rw [if_neg (by simp [hc])] at hdata
      exact ⟨c, [], hdata, by simp [hc]⟩
    · rw [if_neg hr] at hdata
      exact ⟨c, dropTrailingWs t, hdata, by simp [hc]⟩

theorem firstTok_trim_ne_empty {raw : String} (h : ¬ (trimStr raw = "")) :
    ¬ (firstTok (trimStr raw) = "") := by
  obtain ⟨c, t, hd, hws⟩ := trimStr_head_not_ws h
  have hc : c ≠ ' ' := fun he => hws (by rw [he]; decide)
  intro hemp
  have hdata := congrArg String.data hemp
  rw [firstTok_data, firstTokList, hd, breakAtSpace, if_neg hc] at hdata
  cases hb : breakAtSpace t with
  | none => rw [hb] at hdata; cases hdata
  | some ab => rw [hb] at hdata; cases hdata

theorem default_trim_value_ne {raw : String} {kind : RuleKind} {filter : String} {r : Rule}
    (h0 : ¬ (trimStr raw = ""))
    (h : parseRuleLine (trimStr raw) "" kind filter = some r) :
    ¬ (r.value = "") := by
  rw [parseRuleLine_some_value h, if_pos rfl]
  exact firstTok_trim_ne_empty h0

/-- The C9 claim as stated fails on the code: the line consisting of the bare
marker yields a Rule whose value is the empty string. -/
theorem c9_value_cex :
    parseGo cErr 1 ["domain:"] "" =
      Except.ok [Item.rule ⟨RuleKind.domainSuffix, "", ""⟩] := rfl

/-- C9 amended: every Rule produced by Parse has a non-empty value, provided
no processed line (in the parsed text or in any member text the content
accessor can return) has a first token exactly equal to a bare kind marker;
a line such as the bare domain marker is the only way to produce an empty
value. -/
theorem c9_value_amended (c : Converter)
    (hacc : ∀ name content, c.getFile name = Except.ok content →
        ∀ raw ∈ splitLines content, badToken (firstTok (trimStr raw)) = false) :
    ∀ (fuel : Nat) (lines : List String) (filter : String) (items : List Item),
      (∀ raw ∈ lines, badToken (firstTok (trimStr raw)) = false) →
      parseGo c fuel lines filter = Except.ok items →
      ∀ r : Rule, Item.rule r ∈ items → ¬ (r.value = "") := by
  intro fuel
  induction fuel with
  | zero =>
    intro lines filter items hgood hok r hmem
    cases lines with
    | nil =>
      rw [parseGo_nil] at hok
      cases hok
      simp at hmem
    | cons a as =>
      rw [parseGo] at hok
      cases hok
  | succ fuel ih =>
    intro lines filter items hgood hok r hmem
    cases lines with
    | nil =>
      rw [parseGo_nil] at hok
      cases hok
      simp at hmem
    | cons raw rest =>
      have hgoodrest : ∀ x ∈ rest, badToken (firstTok (trimStr x)) = false :=
        fun x hx => hgood x (List.mem_cons_of_mem _ hx)
      have hbad0 := hgood raw (List.mem_cons_self _ _)
      simp only [badToken, Bool.or_eq_false_iff, decide_eq_false_iff_not] at hbad0
      rw [parseGo] at hok
      by_cases h0 : trimStr raw = ""
      · rw [if_pos h0] at hok
        exact ih rest filter items hgoodrest hok r hmem
      · rw [if_neg h0] at hok
        by_cases h1 : startsWithStr (trimStr raw) "#" = true
        · rw [if_pos h1] at hok
          cases hrec : parseGo c fuel rest filter with
          | error e => rw [hrec] at hok; cases hok
          | ok items' =>
            rw [hrec] at hok
            cases hok
            rcases List.mem_cons.1 hmem with h | h
            · exact Item.noConfusion h
            · exact ih rest filter items' hgoodrest hrec r h
        · rw [if_neg h1] at hok
          by_cases h2 : startsWithStr (trimStr raw) "domain:" = true
          · rw [if_pos h2] at hok
            obtain ⟨items', hres, hcase⟩ := consRule_ok hok
            rcases hcase with hcase | ⟨r0, hr0, hcase⟩
            · exact ih rest filter items' hgoodrest hres r (hcase ▸ hmem)
            · subst hcase
              rcases List.mem_cons.1 hmem with h | h
              · injection h with h9
                subst h9
                exact prefixed_value_ne h2 (by decide) (by decide) hbad0.1.1.1 hr0
              · exact ih rest filter items' hgoodrest hres r h
          · rw [if_neg h2] at hok
            by_cases h3 : startsWithStr (trimStr raw) "full:" = true
            · rw [if_pos h3] at hok
              obtain ⟨items', hres, hcase⟩ := consRule_ok hok
              rcases hcase with hcase | ⟨r0, hr0, hcase⟩
              · exact ih rest filter items' hgoodrest hres r (hcase ▸ hmem)
              · subst hcase
                rcases List.mem_cons.1 hmem with h | h
                · injection h with h9
                  subst h9
                  exact prefixed_value_ne h3 (by decide) (by decide) hbad0.1.1.2 hr0
                · exact ih rest filter items' hgoodrest hres r h
            · rw [if_neg h3] at hok
              by_cases h4 : startsWithStr (trimStr raw) "keyword:" = true
              · rw [if_pos h4] at hok
                obtain ⟨items', hres, hcase⟩ := consRule_ok hok
                rcases hcase with hcase | ⟨r0, hr0, hcase⟩
                · exact ih rest filter items' hgoodrest hres r (hcase ▸ hmem)
                · subst hcase
                  rcases List.mem_cons.1 hmem with h | h
                  · injection h with h9
                    subst h9
                    exact prefixed_value_ne h4 (by decide) (by decide) hbad0.1.2 hr0
                  · exact ih rest filter items' hgoodrest hres r h
              · rw [if_neg h4] at hok
                by_cases h5 : startsWithStr (trimStr raw) "regexp:" = true
                · rw [if_pos h5] at hok
                  obtain ⟨items', hres, hcase⟩ := consRule_ok hok
                  rcases hcase with hcase | ⟨r0, hr0, hcase⟩
                  · exact ih rest filter items' hgoodrest hres r (hcase ▸ hmem)
                  · subst hcase
                    rcases List.mem_cons.1 hmem with h | h
                    · injection h with h9
                      subst h9
                      exact prefixed_value_ne h5 (by decide) (by decide) hbad0.2 hr0
                    · exact ih rest filter items' hgoodrest hres r h
                · rw [if_neg h5] at hok
                  by_cases h6 : startsWithStr (trimStr raw) "include:" = true
                  · rw [if_pos h6] at hok
                    dsimp only at hok
                    cases hget : c.getFile
                        (trimPfx ((splitN2 (trimStr raw)).headD "") "include:") with
                    | error e => rw [hget] at hok; cases hok
                    | ok sub =>
                      rw [hget] at hok
                      dsimp only at hok
                      cases hsub : parseGo c fuel (splitLines sub) filter with
                      | error e => rw [hsub] at hok; cases hok
                      | ok subItems =>
                        rw [hsub] at hok
                        dsimp only at hok
                        cases hrest : parseGo c fuel rest filter with
                        | error e => rw [hrest] at hok; cases hok
                        | ok items' =>
                          rw [hrest] at hok
                          dsimp only at hok
                          cases hok
                          rcases List.mem_append.1 hmem with hm | hm
                          · by_cases hr : hasRules subItems = true
                            · rw [if_pos hr] at hm
                              rcases List.mem_cons.1 hm with h | h
                              · exact Item.noConfusion h
                              · exact ih (splitLines sub) filter subItems
                                  (hacc _ sub hget) hsub r h
                            · rw [if_neg hr] at hm
                              simp at hm
                          · exact ih rest filter items' hgoodrest hrest r hm
                  · rw [if_neg h6] at hok
                    obtain ⟨items', hres, hcase⟩ := consRule_ok hok
                    rcases hcase with hcase | ⟨r0, hr0, hcase⟩
                    · exact ih rest filter items' hgoodrest hres r (hcase ▸ hmem)
                    · subst hcase
                      rcases List.mem_cons.1 hmem with h | h
                      · injection h with h9
                        subst h9
                        exact default_trim_value_ne h0 hr0
                      · exact ih rest filter items' hgoodrest hres r h

/-- Witness for C9 amended at a concrete parse producing one rule. -/
theorem c9_value_amended_witness :
    ¬ (("example.com" : String) = "") := by
  have hacc : ∀ name content, cErr.getFile name = Except.ok content →
      ∀ raw ∈ splitLines content, badToken (firstTok (trimStr raw)) = false := by
    intro name content h
    cases h
  exact c9_value_amended cErr hacc 1 ["domain:example.com"] ""
    [Item.rule ⟨RuleKind.domainSuffix, "example.com", ""⟩]
    (by intro raw hr; rcases List.mem_cons.1 hr with h | h
        · subst h; rfl
        · simp at h)
    rfl
    ⟨RuleKind.domainSuffix, "example.com", ""⟩
    (List.mem_cons_self _ _)

end GeoRS
